import Mathlib

/-!
Shallow embedding of the receipt-OCR extraction pipeline of this
repository (`cmd/server/main.go`, package `server`, together with the
provider selection made in `main` from `internal/config`).

Modelling conventions: machine floating-point values (`float32`,
`float64`) are embedded as exact rationals; Go nil-able pointers as
`Option`; byte slices as `List UInt8`; the JSON decoding performed by
`encoding/json` into the `parsedJSON` / `itemJSON` structs is embedded
as a JSON syntax tree, a syntactic parser, and an unmarshalling pass
that mirrors the package's documented semantics (unknown keys ignored,
`null` accepted for every field, type mismatches rejected, later
duplicate keys overwriting earlier ones, key matching case-insensitive).
The gRPC `(response, error)` return pair is made explicit, and the
model backend call is abstracted as an `Except`-valued parameter
together with the observed context error, so that "the backend was
invoked" is recorded in the outcome.
-/

namespace NullReceipts

/-! ## extractJSON: the response extractor (`extractJSON`, `codeBlockRe`) -/

/-- The backtick character, written numerically. -/
def tickChar : Char := Char.ofNat 96

/-- RE2 class `\s` used by `codeBlockRe`: ASCII whitespace. -/
def isReWS (c : Char) : Bool :=
  c = ' ' || c = '\t' || c = '\n' || c = '\x0c' || c = '\r'

/-- The literal `json` looked for after an opening fence. -/
def jsonLit : List Char := ['j', 's', 'o', 'n']

/-- Length bound for `List.dropWhile`. -/
theorem lenDropWhileLe (p : Char → Bool) : ∀ l : List Char, (l.dropWhile p).length ≤ l.length
  | [] => le_rfl
  | c :: t => by
    rw [List.dropWhile_cons]
    split
    · exact le_trans (lenDropWhileLe p t) (Nat.le_succ _)
    · exact le_rfl

/-- The remainder consumed after an opening fence match: the two further
backticks, an optional literal `json`, and greedy whitespace. -/
def fenceRest (cs : List Char) : List Char :=
  (if (cs.drop 2).take 4 = jsonLit then (cs.drop 2).drop 4 else cs.drop 2).dropWhile isReWS

/-- Length bound justifying termination of `stripCodeBlocks`. -/
theorem fenceRest_le (cs : List Char) : (fenceRest cs).length ≤ cs.length := by
  unfold fenceRest
  have h1 : (if (cs.drop 2).take 4 = jsonLit then (cs.drop 2).drop 4 else cs.drop 2).length ≤
      (cs.drop 2).length := by
    split
    · rw [List.length_drop, List.length_drop]
      omega
    · exact le_rfl
  have h2 := lenDropWhileLe isReWS
    (if (cs.drop 2).take 4 = jsonLit then (cs.drop 2).drop 4 else cs.drop 2)
  have h3 : (cs.drop 2).length ≤ cs.length := by
    rw [List.length_drop]
    omega
  omega

/-- Go `codeBlockRe.ReplaceAllString(s, "")` for the pattern
"three backticks, optional literal `json`, greedy ASCII whitespace":
every non-overlapping leftmost match is removed. -/
def stripCodeBlocks : List Char → List Char
  | [] => []
  | c :: cs =>
    if c = tickChar ∧ cs.take 2 = [tickChar, tickChar] then
      stripCodeBlocks (fenceRest cs)
    else
      c :: stripCodeBlocks cs
termination_by s => s.length
decreasing_by
  · have h3 := fenceRest_le cs
    simp only [List.length_cons]
    omega
  · simp only [List.length_cons]
    omega

/-- Go `strings.ReplaceAll(s, three-backticks, "")`, scanning
left-to-right over non-overlapping occurrences. -/
def removeTicks : List Char → List Char
  | [] => []
  | c :: cs =>
    if c = tickChar ∧ cs.take 2 = [tickChar, tickChar] then
      removeTicks (cs.drop 2)
    else
      c :: removeTicks cs
termination_by s => s.length
decreasing_by
  · have h3 : (cs.drop 2).length ≤ cs.length := by
      rw [List.length_drop]
      omega
    simp only [List.length_cons]
    omega
  · simp only [List.length_cons]
    omega

/-- The character class of Go `unicode.IsSpace`, used by `strings.TrimSpace`. -/
def isGoSpace (c : Char) : Bool :=
  decide (c = ' ' ∨ ('\x09' ≤ c ∧ c ≤ '\x0d') ∨ c.toNat = 0x85 ∨ c.toNat = 0xA0 ∨
    c.toNat = 0x1680 ∨ (0x2000 ≤ c.toNat ∧ c.toNat ≤ 0x200A) ∨
    c.toNat = 0x2028 ∨ c.toNat = 0x2029 ∨ c.toNat = 0x202F ∨
    c.toNat = 0x205F ∨ c.toNat = 0x3000)

/-- Go `strings.TrimSpace`. -/
def trimSpace (s : List Char) : List Char :=
  (((s.dropWhile isGoSpace).reverse).dropWhile isGoSpace).reverse

/-- Source `extractJSON`: strip fence markers with `codeBlockRe`, strip any
remaining triple backticks, then trim surrounding whitespace. -/
def extractJSON (s : String) : String :=
  String.mk (trimSpace (removeTicks (stripCodeBlocks s.data)))

/-! ## A JSON syntax tree and a syntactic parser

`encoding/json` first checks that the input is syntactically valid JSON
and then decodes it.  The parser below embeds that syntactic check and
produces the parsed value. -/

/-- JSON values. -/
inductive Json where
  | null
  | bool (b : Bool)
  | num (q : ℚ)
  | str (s : String)
  | arr (elems : List Json)
  | obj (members : List (String × Json))

/-- JSON inter-token whitespace (space, tab, newline, carriage return). -/
def jsonWS (c : Char) : Bool :=
  c = ' ' || c = '\t' || c = '\n' || c = '\r'

/-- Skip JSON whitespace. -/
def skipJsonWS (s : List Char) : List Char := s.dropWhile jsonWS

/-- Numeric value of a list of decimal digits. -/
def digitsToNat (ds : List Char) : Nat :=
  ds.foldl (fun a c => 10 * a + (c.toNat - 48)) 0

/-- Integer power of ten, as a rational. -/
def tenPow : Int → ℚ
  | Int.ofNat n => (10 : ℚ) ^ n
  | Int.negSucc n => ((10 : ℚ) ^ (n + 1))⁻¹

/-- Hexadecimal digit value. -/
def hexDigitVal (c : Char) : Option Nat :=
  if '0' ≤ c ∧ c ≤ '9' then some (c.toNat - 48)
  else if 'a' ≤ c ∧ c ≤ 'f' then some (c.toNat - 87)
  else if 'A' ≤ c ∧ c ≤ 'F' then some (c.toNat - 55)
  else none

/-- Four hexadecimal digits. -/
def hex4 : List Char → Option (Nat × List Char)
  | a :: b :: c :: d :: r =>
    match hexDigitVal a, hexDigitVal b, hexDigitVal c, hexDigitVal d with
    | some x, some y, some z, some w => some (((x * 16 + y) * 16 + z) * 16 + w, r)
    | _, _, _, _ => none
  | _ => none

/-- JSON string-literal body, after the opening quote: plain characters,
the standard escapes, and `\uXXXX` with Go's surrogate handling (a valid
surrogate pair combines; a lone surrogate becomes U+FFFD). Unescaped
control characters are rejected. -/
def pStrA : Nat → List Char → List Char → Option (String × List Char)
  | 0, _, _ => none
  | f + 1, acc, s =>
    match s with
    | [] => none
    | c :: r =>
      if c = '"' then some (String.mk acc.reverse, r)
      else if c = '\\' then
        match r with
        | [] => none
        | e :: r2 =>
          if e = '"' || e = '\\' || e = '/' then pStrA f (e :: acc) r2
          else if e = 'b' then pStrA f ('\x08' :: acc) r2
          else if e = 'f' then pStrA f ('\x0c' :: acc) r2
          else if e = 'n' then pStrA f ('\n' :: acc) r2
          else if e = 'r' then pStrA f ('\x0d' :: acc) r2
          else if e = 't' then pStrA f ('\t' :: acc) r2
          else if e = 'u' then
            match hex4 r2 with
            | none => none
            | some (n, r3) =>
              if 0xD800 ≤ n ∧ n ≤ 0xDBFF then
                match r3 with
                | '\\' :: 'u' :: r4 =>
                  match hex4 r4 with
                  | some (m, r5) =>
                    if 0xDC00 ≤ m ∧ m ≤ 0xDFFF then
                      pStrA f (Char.ofNat (0x10000 + (n - 0xD800) * 0x400 + (m - 0xDC00)) :: acc) r5
                    else pStrA f (Char.ofNat 0xFFFD :: acc) r3
                  | none => pStrA f (Char.ofNat 0xFFFD :: acc) r3
                | _ => pStrA f (Char.ofNat 0xFFFD :: acc) r3
              else if 0xDC00 ≤ n ∧ n ≤ 0xDFFF then
                pStrA f (Char.ofNat 0xFFFD :: acc) r3
              else
                pStrA f (Char.ofNat n :: acc) r3
          else none
      else if c.toNat < 0x20 then none
      else pStrA f (c :: acc) r

/-- Fractional part of a JSON number (after the integer part). -/
def pFrac : List Char → Option (List Char × List Char)
  | '.' :: r =>
    let p := r.span (fun d => d.isDigit)
    if p.1 = [] then none else some (p.1, p.2)
  | s => some ([], s)

/-- Exponent part of a JSON number. -/
def pExpPart : List Char → Option (Int × List Char)
  | [] => some (0, [])
  | c :: r =>
    if c = 'e' ∨ c = 'E' then
      let sgn : Bool × List Char :=
        match r with
        | '+' :: rr => (false, rr)
        | '-' :: rr => (true, rr)
        | _ => (false, r)
      let p := sgn.2.span (fun d => d.isDigit)
      if p.1 = [] then none
      else some ((if sgn.1 then -(digitsToNat p.1 : Int) else (digitsToNat p.1 : Int)), p.2)
    else some (0, c :: r)

/-- JSON number: optional minus, integer part without leading zeros,
optional fraction, optional exponent; the value is exact. -/
def pNumber (s : List Char) : Option (ℚ × List Char) :=
  let sgn : Bool × List Char :=
    match s with
    | '-' :: r => (true, r)
    | _ => (false, s)
  match sgn.2 with
  | [] => none
  | c :: r0 =>
    if c.isDigit then
      let ip : List Char × List Char :=
        if c = '0' then (['0'], r0) else sgn.2.span (fun d => d.isDigit)
      match pFrac ip.2 with
      | none => none
      | some (fds, r2) =>
        match pExpPart r2 with
        | none => none
        | some (ev, r3) =>
          let mag : ℚ := (digitsToNat ip.1 : ℚ) + (digitsToNat fds : ℚ) / ((10 : ℚ) ^ fds.length)
          some ((if sgn.1 then -mag else mag) * tenPow ev, r3)
    else none

mutual

/-- JSON value (fuel-indexed). -/
def pVal : Nat → List Char → Option (Json × List Char)
  | 0, _ => none
  | f + 1, s =>
    match skipJsonWS s with
    | [] => none
    | c :: rest =>
      if c = 'n' then
        if rest.take 3 = ['u', 'l', 'l'] then some (Json.null, rest.drop 3) else none
      else if c = 't' then
        if rest.take 3 = ['r', 'u', 'e'] then some (Json.bool true, rest.drop 3) else none
      else if c = 'f' then
        if rest.take 4 = ['a', 'l', 's', 'e'] then some (Json.bool false, rest.drop 4) else none
      else if c = '"' then
        match pStrA (rest.length + 1) [] rest with
        | some (t, r2) => some (Json.str t, r2)
        | none => none
      else if c = '[' then
        match skipJsonWS rest with
        | ']' :: r2 => some (Json.arr [], r2)
        | r1 =>
          match pElems f r1 with
          | some (xs, r2) => some (Json.arr xs, r2)
          | none => none
      else if c = '{' then
        match skipJsonWS rest with
        | '}' :: r2 => some (Json.obj [], r2)
        | r1 =>
          match pMems f r1 with
          | some (ms, r2) => some (Json.obj ms, r2)
          | none => none
      else
        match pNumber (c :: rest) with
        | some (q, r2) => some (Json.num q, r2)
        | none => none

/-- Comma-separated JSON array elements up to the closing bracket. -/
def pElems : Nat → List Char → Option (List Json × List Char)
  | 0, _ => none
  | f + 1, s =>
    match pVal f s with
    | none => none
    | some (v, r) =>
      match skipJsonWS r with
      | ',' :: r2 =>
        match pElems f r2 with
        | some (xs, r3) => some (v :: xs, r3)
        | none => none
      | ']' :: r2 => some ([v], r2)
      | _ => none

/-- Comma-separated JSON object members up to the closing brace. -/
def pMems : Nat → List Char → Option (List (String × Json) × List Char)
  | 0, _ => none
  | f + 1, s =>
    match skipJsonWS s with
    | '"' :: r =>
      match pStrA (r.length + 1) [] r with
      | none => none
      | some (k, r1) =>
        match skipJsonWS r1 with
        | ':' :: r2 =>
          match pVal f r2 with
          | none => none
          | some (v, r3) =>
            match skipJsonWS r3 with
            | ',' :: r4 =>
              match pMems f r4 with
              | some (ms, r5) => some ((k, v) :: ms, r5)
              | none => none
            | '}' :: r4 => some ([(k, v)], r4)
            | _ => none
        | _ => none
    | _ => none

end

/-- Syntactic JSON check and parse of a whole text, as performed by
`json.Unmarshal`: one value, with only whitespace allowed after it. -/
def parseJsonText (s : String) : Option Json :=
  match pVal (2 * s.data.length + 8) s.data with
  | some (v, rest) => if skipJsonWS rest = [] then some v else none
  | none => none

/-! ## The intermediate structs `parsedJSON` and `itemJSON`, and
`json.Unmarshal` into them. -/

/-- Source struct `itemJSON` (`qty` and `unit_price` are pointers). -/
structure itemJSON where
  raw : String
  name : String
  qty : Option ℚ
  unitPrice : Option ℚ
deriving DecidableEq

/-- Source struct `parsedJSON` (`date`, `subtotal`, `tax`, `total` are pointers). -/
structure parsedJSON where
  merchant : String
  date : Option String
  currency : String
  items : List itemJSON
  subtotal : Option ℚ
  tax : Option ℚ
  total : Option ℚ
deriving DecidableEq

/-- The zero value of `itemJSON`. -/
def zeroItem : itemJSON := ⟨"", "", none, none⟩

/-- The zero value of `parsedJSON`. -/
def zeroParsed : parsedJSON := ⟨"", none, "", [], none, none, none⟩

/-- ASCII lowercasing of one character. -/
def lowerChar (c : Char) : Char :=
  if 'A' ≤ c ∧ c ≤ 'Z' then Char.ofNat (c.toNat + 32) else c

/-- ASCII lowercasing of a string. -/
def lowerStr (s : String) : String := String.mk (s.data.map lowerChar)

/-- `encoding/json` key-to-field matching: the struct tags here are all
lowercase ASCII and pairwise distinct under folding, so a key matches a
tag exactly when its lowercasing equals the tag. -/
def keyMatch (k tag : String) : Bool := lowerStr k == tag

/-- Unmarshal a JSON value into a Go `string` field: `null` keeps the
current value, a string replaces it, anything else is a type error. -/
def asStrKeep (cur : String) : Json → Except String String
  | Json.null => Except.ok cur
  | Json.str t => Except.ok t
  | _ => Except.error "json: cannot unmarshal value into field of type string"

/-- Unmarshal a JSON value into a Go `*string` field: `null` sets nil. -/
def asStrOpt : Json → Except String (Option String)
  | Json.null => Except.ok none
  | Json.str t => Except.ok (some t)
  | _ => Except.error "json: cannot unmarshal value into field of type *string"

/-- Unmarshal a JSON value into a Go `*float64` field: `null` sets nil. -/
def asNumOpt : Json → Except String (Option ℚ)
  | Json.null => Except.ok none
  | Json.num q => Except.ok (some q)
  | _ => Except.error "json: cannot unmarshal value into field of type *float64"

/-- Unmarshal one object member into `itemJSON`; unknown keys are ignored. -/
def setItemField (it : itemJSON) (k : String) (v : Json) : Except String itemJSON :=
  if keyMatch k "raw" then (asStrKeep it.raw v).map (fun t => { it with raw := t })
  else if keyMatch k "name" then (asStrKeep it.name v).map (fun t => { it with name := t })
  else if keyMatch k "qty" then (asNumOpt v).map (fun q => { it with qty := q })
  else if keyMatch k "unit_price" then (asNumOpt v).map (fun q => { it with unitPrice := q })
  else Except.ok it

/-- Unmarshal the members of an object into `itemJSON`, in order. -/
def applyItemMembers (it : itemJSON) : List (String × Json) → Except String itemJSON
  | [] => Except.ok it
  | (k, v) :: rest =>
    match setItemField it k v with
    | Except.error e => Except.error e
    | Except.ok it2 => applyItemMembers it2 rest

/-- Unmarshal one JSON array element into `itemJSON` (`null` leaves the
zero value, as `encoding/json` does for a struct element). -/
def decodeItem : Json → Except String itemJSON
  | Json.null => Except.ok zeroItem
  | Json.obj ms => applyItemMembers zeroItem ms
  | _ => Except.error "json: cannot unmarshal value into field of type itemJSON"

/-- Unmarshal a JSON array into `[]itemJSON`, element by element. -/
def decodeItemList : List Json → Except String (List itemJSON)
  | [] => Except.ok []
  | v :: rest =>
    match decodeItem v with
    | Except.error e => Except.error e
    | Except.ok it =>
      match decodeItemList rest with
      | Except.error e => Except.error e
      | Except.ok its => Except.ok (it :: its)

/-- Unmarshal a JSON value into the `items` slice field: `null` sets nil. -/
def asItems : Json → Except String (List itemJSON)
  | Json.null => Except.ok []
  | Json.arr xs => decodeItemList xs
  | _ => Except.error "json: cannot unmarshal value into field of type []itemJSON"

/-- Unmarshal one object member into `parsedJSON`; unknown keys are ignored. -/
def setParsedField (p : parsedJSON) (k : String) (v : Json) : Except String parsedJSON :=
  if keyMatch k "merchant" then (asStrKeep p.merchant v).map (fun t => { p with merchant := t })
  else if keyMatch k "date" then (asStrOpt v).map (fun t => { p with date := t })
  else if keyMatch k "currency" then (asStrKeep p.currency v).map (fun t => { p with currency := t })
  else if keyMatch k "items" then (asItems v).map (fun xs => { p with items := xs })
  else if keyMatch k "subtotal" then (asNumOpt v).map (fun q => { p with subtotal := q })
  else if keyMatch k "tax" then (asNumOpt v).map (fun q => { p with tax := q })
  else if keyMatch k "total" then (asNumOpt v).map (fun q => { p with total := q })
  else Except.ok p

/-- Unmarshal the members of an object into `parsedJSON`, in order. -/
def applyParsedMembers (p : parsedJSON) : List (String × Json) → Except String parsedJSON
  | [] => Except.ok p
  | (k, v) :: rest =>
    match setParsedField p k v with
    | Except.error e => Except.error e
    | Except.ok p2 => applyParsedMembers p2 rest

/-- `json.Unmarshal(data, &p)` for `p : parsedJSON`, given the parsed
value: `null` is a no-op, an object is decoded member by member, any
other top-level value is a type error. -/
def unmarshalParsed : Json → Except String parsedJSON
  | Json.null => Except.ok zeroParsed
  | Json.obj ms => applyParsedMembers zeroParsed ms
  | _ => Except.error "json: cannot unmarshal value into parsedJSON"

/-! ## The protobuf-level record (`pb.ParsedReceipt`) and `parseResponse`. -/

/-- Message `ParsedItem`: `name` is an optional field, `qty` and
`unit_price` are plain doubles. -/
structure ParsedItem where
  raw : String
  name : Option String
  qty : ℚ
  unitPrice : ℚ
deriving DecidableEq

/-- Message `ParsedReceipt`; optional scalar fields are `Option`. -/
structure ParsedReceipt where
  merchant : Option String
  date : Option String
  currency : Option String
  items : List ParsedItem
  subtotal : Option ℚ
  tax : Option ℚ
  total : Option ℚ
  confidence : ℚ
deriving DecidableEq

/-- The per-item mapping inside `parseResponse`: empty `name` stays
absent, missing `qty` defaults to 1.0, missing `unit_price` keeps the
zero value 0.0, `raw` is copied as-is. -/
def itemFromJSON (it : itemJSON) : ParsedItem :=
  { raw := it.raw
    name := if it.name ≠ "" then some it.name else none
    qty := match it.qty with
      | some q => q
      | none => 1
    unitPrice := match it.unitPrice with
      | some u => u
      | none => 0 }

/-- The record-building part of `parseResponse` (lines after a successful
unmarshal): empty `merchant`/`currency` stay absent, pointers carry over. -/
def receiptFromParsed (p : parsedJSON) : ParsedReceipt :=
  { merchant := if p.merchant ≠ "" then some p.merchant else none
    date := p.date
    currency := if p.currency ≠ "" then some p.currency else none
    items := p.items.map itemFromJSON
    subtotal := p.subtotal
    tax := p.tax
    total := p.total
    confidence := 0 }

/-- Source `parseResponse`: extract the candidate JSON text, unmarshal
it, and build the receipt; every unmarshalling failure is wrapped as
`invalid JSON: ...`. -/
def parseResponse (raw : String) : Except String ParsedReceipt :=
  match parseJsonText (extractJSON raw) with
  | none => Except.error "invalid JSON: syntax error"
  | some v =>
    match unmarshalParsed v with
    | Except.error e => Except.error ("invalid JSON: " ++ e)
    | Except.ok p => Except.ok (receiptFromParsed p)

/-! ## The confidence scorer (`calcConfidence`). -/

/-- The item-sum loop inside `calcConfidence`. -/
def itemsSum (items : List ParsedItem) : ℚ :=
  items.foldl (fun acc it => acc + it.qty * it.unitPrice) 0

/-- Source `calcConfidence`: base 0.5, four 0.1 field bonuses, a 0.1
reconciliation bonus, clamped above at 1.0. -/
def calcConfidence (r : ParsedReceipt) : ℚ :=
  let s0 : ℚ := 0.5
  let s1 := if r.merchant.isSome then s0 + 0.1 else s0
  let s2 := if r.date.isSome then s1 + 0.1 else s1
  let s3 := if r.total.isSome then s2 + 0.1 else s2
  let s4 := if r.items.length > 0 then s3 + 0.1 else s3
  let s5 :=
    match r.subtotal with
    | some st =>
      if r.items.length > 0 ∧ |itemsSum r.items - st| ≤ st * 0.05 then s4 + 0.1 else s4
    | none => s4
  if s5 > 1.0 then 1.0 else s5

/-! ## The orchestrator (`ParseReceipt`), `Health`, and provider selection. -/

/-- Error codes of `pb.OCRErrorCode` used by the server. -/
inductive OCRErrorCode where
  | invalidImage
  | timeout
  | modelError
  | parseFailed
deriving DecidableEq

/-- Message `pb.OCRError`. -/
structure OCRError where
  code : OCRErrorCode
  message : String
deriving DecidableEq

/-- Message `pb.ParseReceiptResponse`. -/
structure ParseReceiptResponse where
  success : Bool
  data : Option ParsedReceipt
  error : Option OCRError
deriving DecidableEq

/-- Source `errorResponse`. -/
def errorResponse (code : OCRErrorCode) (msg : String) : ParseReceiptResponse :=
  { success := false, data := none, error := some { code := code, message := msg } }

/-- The server value: which client pointer is non-nil, and the model name. -/
structure Server where
  hasOllama : Bool
  hasGemini : Bool
  model : String

/-- Provider selection in `main`: `"gemini"` constructs the server with a
Gemini client only, anything else with an Ollama client only. -/
def serverFor (provider model : String) : Server :=
  if provider = "gemini" then { hasOllama := false, hasGemini := true, model := model }
  else { hasOllama := true, hasGemini := false, model := model }

/-- The possible values of `ctx.Err()` for a non-nil context error. -/
inductive CtxErr where
  | canceled
  | deadlineExceeded
deriving DecidableEq

/-- Source constant `maxImageSize = 5 << 20`. -/
def maxImageSize : Nat := 5 <<< 20

/-- One second in nanoseconds (`time.Second`). -/
def secondNanos : Nat := 1000000000

/-- One minute in nanoseconds (`time.Minute`). -/
def minuteNanos : Nat := 60 * secondNanos

/-- Source constant `timeout = 5 * time.Minute` bounding the backend call. -/
def inferenceTimeoutNanos : Nat := 5 * minuteNanos

/-- The deadline used by `Health` for the Ollama liveness probe. -/
def healthProbeNanos : Nat := 5 * secondNanos

/-- Source `callModel`/`callOllama`/`callGemini`: dispatch on the non-nil
client; a backend failure is wrapped with the provider name. The
backend's own outcome is a parameter of the model. -/
def callModel (s : Server) (backendRaw : Except String String) : Except String String :=
  if s.hasGemini then
    match backendRaw with
    | Except.ok t => Except.ok t
    | Except.error e => Except.error ("gemini: " ++ e)
  else
    match backendRaw with
    | Except.ok t => Except.ok t
    | Except.error e => Except.error ("ollama: " ++ e)

/-- Go `cmp.Or` on strings: the first non-zero value. -/
def cmpOr (a b : String) : String := if a ≠ "" then a else b

/-- The observable outcome of one `ParseReceipt` call: the response, the
gRPC error return (nil on every path in the source), whether the model
backend was invoked, and the content type it was invoked with. -/
structure ParseOutcome where
  resp : ParseReceiptResponse
  grpcErr : Option String
  backendInvoked : Bool
  contentTypeSent : Option String

/-- Source `ParseReceipt`: size validation, backend call under the
5-minute deadline, timeout classification via `ctx.Err()`, parsing and
scoring.  `backendRaw` is the backend call's outcome and `ctxErr` the
value of `ctx.Err()` observed after a failed call. -/
def ParseReceipt (s : Server) (imageData : List UInt8) (contentType : String)
    (backendRaw : Except String String) (ctxErr : Option CtxErr) : ParseOutcome :=
  if imageData.length = 0 then
    { resp := errorResponse OCRErrorCode.invalidImage "empty image", grpcErr := none,
      backendInvoked := false, contentTypeSent := none }
  else if imageData.length > maxImageSize then
    { resp := errorResponse OCRErrorCode.invalidImage "image exceeds 5MB limit", grpcErr := none,
      backendInvoked := false, contentTypeSent := none }
  else
    let ct := cmpOr contentType "image/jpeg"
    match callModel s backendRaw with
    | Except.error e =>
      if ctxErr = some CtxErr.deadlineExceeded then
        { resp := errorResponse OCRErrorCode.timeout "inference timeout", grpcErr := none,
          backendInvoked := true, contentTypeSent := some ct }
      else
        { resp := errorResponse OCRErrorCode.modelError e, grpcErr := none,
          backendInvoked := true, contentTypeSent := some ct }
    | Except.ok raw =>
      match parseResponse raw with
      | Except.error e =>
        { resp := errorResponse OCRErrorCode.parseFailed e, grpcErr := none,
          backendInvoked := true, contentTypeSent := some ct }
      | Except.ok receipt =>
        { resp := { success := true,
                    data := some { receipt with confidence := calcConfidence receipt },
                    error := none },
          grpcErr := none, backendInvoked := true, contentTypeSent := some ct }

/-- Message `pb.HealthResponse`. -/
structure HealthResponse where
  status : String
  model : String
deriving DecidableEq

/-- Source `Health`: with an Ollama client, probe it (outcome `probeErr`)
and report `unhealthy` on failure; otherwise `ok` unconditionally. The
second component records whether the probe was performed. -/
def Health (s : Server) (probeErr : Bool) : HealthResponse × Bool :=
  if s.hasOllama then
    if probeErr then ({ status := "unhealthy", model := s.model }, true)
    else ({ status := "ok", model := s.model }, true)
  else ({ status := "ok", model := s.model }, false)

/-! ## Shared helper lemmas -/

/-- Whether an `Except` computation succeeded. -/
def isOkE {ε α : Type} : Except ε α → Bool
  | Except.ok _ => true
  | Except.error _ => false

/-- A string with a nonempty literal prepended is nonempty. -/
theorem strCatNe (a b : String) (ha : a.data ≠ []) : a ++ b ≠ "" := by
  intro h
  have hd : (a ++ b).data = ("" : String).data := by rw [h]
  rw [String.data_append] at hd
  simp only [String.data] at hd
  exact ha (List.append_eq_nil.mp hd).1

/-- Every error produced by `parseResponse` carries a nonempty message. -/
theorem parseResponse_error_ne (raw e : String) (h : parseResponse raw = Except.error e) :
    e ≠ "" := by
  unfold parseResponse at h
  rcases hp : parseJsonText (extractJSON raw) with _ | v
  · rw [hp] at h
    dsimp only at h
    injection h with h
    subst h
    decide
  · rw [hp] at h
    dsimp only at h
    rcases hu : unmarshalParsed v with e2 | p
    · rw [hu] at h
      dsimp only at h
      injection h with h
      subst h
      exact strCatNe "invalid JSON: " e2 (by decide)
    · rw [hu] at h
      dsimp only at h
      cases h

/-- `stripCodeBlocks` is the identity on backtick-free text. -/
theorem stripCodeBlocks_no_tick (l : List Char) (h : ∀ c ∈ l, c ≠ tickChar) :
    stripCodeBlocks l = l := by
  induction l with
  | nil => rw [stripCodeBlocks]
  | cons c cs ih =>
    rw [stripCodeBlocks, if_neg, ih (fun x hx => h x (List.mem_cons_of_mem _ hx))]
    intro hc
    exact h c (List.mem_cons_self _ _) hc.1

/-- `removeTicks` is the identity on backtick-free text. -/
theorem removeTicks_no_tick (l : List Char) (h : ∀ c ∈ l, c ≠ tickChar) :
    removeTicks l = l := by
  induction l with
  | nil => rw [removeTicks]
  | cons c cs ih =>
    rw [removeTicks, if_neg, ih (fun x hx => h x (List.mem_cons_of_mem _ hx))]
    intro hc
    exact h c (List.mem_cons_self _ _) hc.1

/-- On backtick-free text, `extractJSON` only trims surrounding whitespace. -/
theorem extractJSON_no_tick (s : String) (h : ∀ c ∈ s.data, c ≠ tickChar) :
    extractJSON s = String.mk (trimSpace s.data) := by
  unfold extractJSON
  rw [stripCodeBlocks_no_tick s.data h, removeTicks_no_tick s.data h]

/-! ## Claim C1 -/

/-- Claim C1: for every image payload that is empty or larger than 5 MiB,
`ParseReceipt` returns a failed result with error kind `InvalidImage`,
and the model backend is never invoked for that request. -/
theorem c1_invalid_image_rejected (s : Server) (img : List UInt8) (ct : String)
    (braw : Except String String) (ctxErr : Option CtxErr)
    (h : img.length = 0 ∨ img.length > maxImageSize) :
    (ParseReceipt s img ct braw ctxErr).resp.success = false ∧
    (∃ m, (ParseReceipt s img ct braw ctxErr).resp.error =
      some ⟨OCRErrorCode.invalidImage, m⟩) ∧
    (ParseReceipt s img ct braw ctxErr).backendInvoked = false := by
  rcases h with h0 | hbig
  · refine ⟨?_, ⟨"empty image", ?_⟩, ?_⟩ <;> simp [ParseReceipt, h0, errorResponse]
  · have hne : img.length ≠ 0 := by
      have hpos : 0 < maxImageSize := by decide
      omega
    refine ⟨?_, ⟨"image exceeds 5MB limit", ?_⟩, ?_⟩ <;>
      simp [ParseReceipt, hne, hbig, errorResponse]

/-- Witness for C1 at the empty image. -/
theorem c1_witness :
    (ParseReceipt (serverFor "ollama" "m") [] "" (Except.ok "") none).resp.success = false ∧
    (∃ m, (ParseReceipt (serverFor "ollama" "m") [] "" (Except.ok "") none).resp.error =
      some ⟨OCRErrorCode.invalidImage, m⟩) ∧
    (ParseReceipt (serverFor "ollama" "m") [] "" (Except.ok "") none).backendInvoked = false :=
  c1_invalid_image_rejected (serverFor "ollama" "m") [] "" (Except.ok "") none (Or.inl rfl)

/-! ## Claim C2 -/

/-- Claim C2 counterexample: when the backend call fails because the
caller's context was cancelled (so `ctx.Err()` is `context.Canceled`,
not `context.DeadlineExceeded`), the code returns `ModelError`, whereas
the claim requires `Timeout` for that case. -/
theorem c2_counterexample :
    (ParseReceipt (serverFor "ollama" "m") [0] "" (Except.error "context canceled")
      (some CtxErr.canceled)).resp.error =
      some ⟨OCRErrorCode.modelError, "ollama: context canceled"⟩ ∧
    OCRErrorCode.modelError ≠ OCRErrorCode.timeout :=
  ⟨rfl, by decide⟩

/-- Claim C2 (amended): for a validated image whose backend call fails,
the result is `Timeout` exactly when the composed context reports
deadline expiry at the check (which covers the orchestrator's 5-minute
deadline and a caller deadline elapsing first), and `ModelError` for
every other failure — including the case of a cancelled caller context. -/
theorem c2_timeout_classification (s : Server) (img : List UInt8) (ct msg : String)
    (ctxErr : Option CtxErr) (h0 : img.length ≠ 0) (h1 : ¬ img.length > maxImageSize) :
    ((ParseReceipt s img ct (Except.error msg) ctxErr).resp.error.map OCRError.code =
        some OCRErrorCode.timeout ↔ ctxErr = some CtxErr.deadlineExceeded) ∧
    (ctxErr ≠ some CtxErr.deadlineExceeded →
      (ParseReceipt s img ct (Except.error msg) ctxErr).resp.error.map OCRError.code =
        some OCRErrorCode.modelError) := by
  by_cases hg : s.hasGemini <;> by_cases hctx : ctxErr = some CtxErr.deadlineExceeded <;>
    simp [ParseReceipt, callModel, errorResponse, h0, h1, hg, hctx]

/-- Witness for C2 (amended) at a deadline-expired backend failure. -/
theorem c2_witness :
    ((ParseReceipt (serverFor "ollama" "m") [0] "" (Except.error "timed out")
        (some CtxErr.deadlineExceeded)).resp.error.map OCRError.code =
      some OCRErrorCode.timeout ↔ some CtxErr.deadlineExceeded = some CtxErr.deadlineExceeded) ∧
    (some CtxErr.deadlineExceeded ≠ some CtxErr.deadlineExceeded →
      (ParseReceipt (serverFor "ollama" "m") [0] "" (Except.error "timed out")
        (some CtxErr.deadlineExceeded)).resp.error.map OCRError.code =
      some OCRErrorCode.modelError) :=
  c2_timeout_classification (serverFor "ollama" "m") [0] "" "timed out"
    (some CtxErr.deadlineExceeded) (by decide) (by decide)

/-! ## Claim C8 -/

/-- Claim C8: every failure kind is returned from `ParseReceipt` as a
structured result with `success = false`, an error code and a nonempty
human-readable message, the gRPC error return is nil on every path, and
each of the four codes is realizable. -/
theorem c8_structured_failures :
    (∀ (s : Server) (img : List UInt8) (ct : String) (braw : Except String String)
      (ctxErr : Option CtxErr),
      (ParseReceipt s img ct braw ctxErr).grpcErr = none ∧
      ((ParseReceipt s img ct braw ctxErr).resp.success = true →
        (ParseReceipt s img ct braw ctxErr).resp.error = none ∧
        ((ParseReceipt s img ct braw ctxErr).resp.data).isSome = true) ∧
      ((ParseReceipt s img ct braw ctxErr).resp.success = false →
        ∃ e, (ParseReceipt s img ct braw ctxErr).resp.error = some e ∧ e.message ≠ "")) ∧
    (ParseReceipt (serverFor "ollama" "m") [] "" (Except.ok "") none).resp.error.map
      OCRError.code = some OCRErrorCode.invalidImage ∧
    (ParseReceipt (serverFor "ollama" "m") [0] "" (Except.error "x")
      (some CtxErr.deadlineExceeded)).resp.error.map OCRError.code =
      some OCRErrorCode.timeout ∧
    (ParseReceipt (serverFor "ollama" "m") [0] "" (Except.error "x") none).resp.error.map
      OCRError.code = some OCRErrorCode.modelError ∧
    (ParseReceipt (serverFor "ollama" "m") [0] "" (Except.ok "not json") none).resp.error.map
      OCRError.code = some OCRErrorCode.parseFailed := by
  have hparse : parseResponse "not json" = Except.error "invalid JSON: syntax error" := by
    unfold parseResponse
    rw [extractJSON_no_tick "not json" (by decide)]
    rfl
  refine ⟨?_, rfl, rfl, rfl, ?_⟩
  · intro s img ct braw ctxErr
    unfold ParseReceipt
    split
    · refine ⟨rfl, ?_, ?_⟩
      · intro h
        simp [errorResponse] at h
      · intro _
        exact ⟨_, rfl, by decide⟩
    · split
      · refine ⟨rfl, ?_, ?_⟩
        · intro h
          simp [errorResponse] at h
        · intro _
          exact ⟨_, rfl, by decide⟩
      · rcases hcm : callModel s braw with e | raw
        · have hne : e ≠ "" := by
            unfold callModel at hcm
            rcases braw with e0 | t0
            · by_cases hg : s.hasGemini
              · simp only [if_pos hg] at hcm
                injection hcm with hcm
                rw [← hcm]
                exact strCatNe "gemini: " e0 (by decide)
              · simp only [if_neg hg] at hcm
                injection hcm with hcm
                rw [← hcm]
                exact strCatNe "ollama: " e0 (by decide)
            · by_cases hg : s.hasGemini <;> simp [hg] at hcm
          simp only [hcm]
          split
          · refine ⟨rfl, ?_, ?_⟩
            · intro h
              simp [errorResponse] at h
            · intro _
              exact ⟨_, rfl, by decide⟩
          · refine ⟨rfl, ?_, ?_⟩
            · intro h
              simp [errorResponse] at h
            · intro _
              exact ⟨_, rfl, hne⟩
        · simp only [hcm]
          rcases hpr : parseResponse raw with e | receipt
          · refine ⟨rfl, ?_, ?_⟩
            · intro h
              simp [errorResponse] at h
            · intro _
              exact ⟨_, rfl, parseResponse_error_ne raw e hpr⟩
          · refine ⟨rfl, ?_, ?_⟩
            · intro _
              exact ⟨rfl, rfl⟩
            · intro h
              simp at h
  · show (ParseReceipt (serverFor "ollama" "m") [0] "" (Except.ok "not json") none).resp.error.map
      OCRError.code = some OCRErrorCode.parseFailed
    unfold ParseReceipt
    rw [if_neg (by decide), if_neg (by decide)]
    dsimp only
    rw [show callModel (serverFor "ollama" "m") (Except.ok "not json") =
      Except.ok "not json" from rfl]
    dsimp only
    rw [hparse]
    rfl

/-- Witness for C8 (discharging the inner implications at the empty image). -/
theorem c8_witness :
    (ParseReceipt (serverFor "gemini" "g") [] "" (Except.ok "") none).grpcErr = none ∧
    ∃ e, (ParseReceipt (serverFor "gemini" "g") [] "" (Except.ok "") none).resp.error =
      some e ∧ e.message ≠ "" :=
  ⟨(c8_structured_failures.1 (serverFor "gemini" "g") [] "" (Except.ok "") none).1,
    (c8_structured_failures.1 (serverFor "gemini" "g") [] "" (Except.ok "") none).2.2 rfl⟩

/-! ## Claim C9 -/

/-- Claim C9: `Health` returns the configured model name in every case;
under the local-backend (Ollama) configuration it performs the liveness
probe (bounded by the 5-second constant) and answers `unhealthy` exactly
when the probe fails, while under the hosted (Gemini) configuration it
answers `ok` unconditionally and performs no probe. -/
theorem c9_health_status (provider model : String) (probeErr : Bool) :
    (Health (serverFor provider model) probeErr).1.model = model ∧
    (provider ≠ "gemini" →
      (Health (serverFor provider model) probeErr).2 = true ∧
      (Health (serverFor provider model) probeErr).1.status =
        (if probeErr then "unhealthy" else "ok")) ∧
    (provider = "gemini" →
      (Health (serverFor provider model) probeErr).2 = false ∧
      (Health (serverFor provider model) probeErr).1.status = "ok") ∧
    healthProbeNanos = 5 * secondNanos := by
  by_cases hp : provider = "gemini" <;> cases probeErr <;>
    simp [Health, serverFor, hp, healthProbeNanos]

/-- Witness for C9 under both configurations. -/
theorem c9_witness :
    ((Health (serverFor "ollama" "qwen") true).2 = true ∧
      (Health (serverFor "ollama" "qwen") true).1.status =
        (if true then "unhealthy" else "ok")) ∧
    ((Health (serverFor "gemini" "gem") true).2 = false ∧
      (Health (serverFor "gemini" "gem") true).1.status = "ok") :=
  ⟨(c9_health_status "ollama" "qwen" true).2.1 (by decide),
    (c9_health_status "gemini" "gem" true).2.2.1 rfl⟩

/-! ## Claims C3 and C4: the confidence scorer -/

/-- The reconciliation-bonus condition, as the spec words it: a subtotal
is present, at least one item exists, and the item sum is within the
absolute tolerance `subtotal * 0.05`. -/
def reconBonus (r : ParsedReceipt) : Prop :=
  ∃ st, r.subtotal = some st ∧ r.items.length > 0 ∧ |itemsSum r.items - st| ≤ st * 0.05

instance reconBonusDec (r : ParsedReceipt) : Decidable (reconBonus r) :=
  match h : r.subtotal with
  | some st =>
    decidable_of_iff (r.items.length > 0 ∧ |itemsSum r.items - st| ≤ st * 0.05) (by
      constructor
      · intro hh
        exact ⟨st, h, hh⟩
      · rintro ⟨st', hst', hh⟩
        rw [h] at hst'
        injection hst' with e
        subst e
        exact hh)
  | none =>
    isFalse (by
      rintro ⟨st, hst, _⟩
      rw [h] at hst
      cases hst)

/-- The spec's closed-form description of the score: base 0.5, five
additive 0.1 terms, clamped above at 1.0. -/
def specScore (r : ParsedReceipt) : ℚ :=
  min (0.5 + (if r.merchant.isSome then 0.1 else 0) + (if r.date.isSome then 0.1 else 0) +
    (if r.total.isSome then 0.1 else 0) + (if r.items ≠ [] then 0.1 else 0) +
    (if reconBonus r then 0.1 else 0)) 1

/-- The final clamp of `calcConfidence` written as a `min`. -/
theorem clampEq (a : ℚ) : (if a > 1 then 1 else a) = min a 1 := by
  rcases le_or_lt a 1 with h | h
  · rw [if_neg (not_lt.mpr h), min_eq_left h]
  · rw [if_pos h, min_eq_right h.le]

/-- `calcConfidence` agrees with the spec's closed form. -/
theorem calc_eq_spec (r : ParsedReceipt) : calcConfidence r = specScore r := by
  unfold calcConfidence specScore
  rcases hst : r.subtotal with _ | st
  · by_cases h1 : r.merchant.isSome <;> by_cases h2 : r.date.isSome <;>
      by_cases h3 : r.total.isSome <;> by_cases h4 : r.items = [] <;>
      simp [h1, h2, h3, h4, hst, reconBonus, List.length_pos, clampEq] <;>
      norm_num [min_def]
  · by_cases h1 : r.merchant.isSome <;> by_cases h2 : r.date.isSome <;>
      by_cases h3 : r.total.isSome <;> by_cases h4 : r.items = [] <;>
      by_cases h5 : |itemsSum r.items - st| ≤ st * 0.05 <;>
      simp [h1, h2, h3, h4, h5, hst, reconBonus, List.length_pos, clampEq] <;>
      norm_num [min_def]

/-- Each additive term of `specScore` is nonnegative. -/
theorem iteNonneg (P : Prop) [Decidable P] : (0 : ℚ) ≤ if P then 0.1 else 0 := by
  split <;> norm_num

/-- Claim C3: `Score(r)` equals 0.5 plus 0.1 for each of merchant, date,
total, item presence and the reconciliation bonus, clamped at 1.0; hence
`0.5 ≤ Score(r) ≤ 1.0`, and adding a previously-absent qualifying field
never decreases the score. -/
theorem c3_confidence_structure (r : ParsedReceipt) :
    calcConfidence r = specScore r ∧
    0.5 ≤ calcConfidence r ∧ calcConfidence r ≤ 1 ∧
    (∀ m, r.merchant = none → calcConfidence r ≤ calcConfidence { r with merchant := some m }) ∧
    (∀ d, r.date = none → calcConfidence r ≤ calcConfidence { r with date := some d }) ∧
    (∀ t, r.total = none → calcConfidence r ≤ calcConfidence { r with total := some t }) ∧
    (∀ it, r.items = [] → calcConfidence r ≤ calcConfidence { r with items := [it] }) ∧
    (∀ st, r.subtotal = none →
      calcConfidence r ≤ calcConfidence { r with subtotal := some st }) := by
  have hb1 := iteNonneg r.merchant.isSome
  have hb2 := iteNonneg r.date.isSome
  have hb3 := iteNonneg r.total.isSome
  have hb4 := iteNonneg (r.items ≠ [])
  have hb5 := iteNonneg (reconBonus r)
  refine ⟨calc_eq_spec r, ?_, ?_, ?_, ?_, ?_, ?_, ?_⟩
  · rw [calc_eq_spec r]
    unfold specScore
    refine le_min ?_ (by norm_num)
    linarith
  · rw [calc_eq_spec r]
    exact min_le_right _ _
  · intro m hm
    rw [calc_eq_spec, calc_eq_spec]
    unfold specScore
    refine min_le_min ?_ le_rfl
    have hrec : reconBonus { r with merchant := some m } = reconBonus r := rfl
    dsimp only
    simp only [hm, hrec, Option.isSome_none, Option.isSome_some]
    norm_num
  · intro d hd
    rw [calc_eq_spec, calc_eq_spec]
    unfold specScore
    refine min_le_min ?_ le_rfl
    have hrec : reconBonus { r with date := some d } = reconBonus r := rfl
    dsimp only
    simp only [hd, hrec, Option.isSome_none, Option.isSome_some]
    norm_num
  · intro t ht
    rw [calc_eq_spec, calc_eq_spec]
    unfold specScore
    refine min_le_min ?_ le_rfl
    have hrec : reconBonus { r with total := some t } = reconBonus r := rfl
    dsimp only
    simp only [ht, hrec, Option.isSome_none, Option.isSome_some]
    norm_num
  · intro it hit
    rw [calc_eq_spec, calc_eq_spec]
    unfold specScore
    refine min_le_min ?_ le_rfl
    have hzr : reconBonus r = False := by
      simp only [eq_iff_iff, iff_false]
      rintro ⟨st, _, hlen, _⟩
      rw [hit] at hlen
      simp at hlen
    have h5b := iteNonneg (reconBonus { r with items := [it] })
    dsimp only
    simp only [hit, hzr, ne_eq, not_true_eq_false, not_false_eq_true, if_false, if_true,
      List.cons_ne_self]
    norm_num
    linarith
  · intro st hsub
    rw [calc_eq_spec, calc_eq_spec]
    unfold specScore
    refine min_le_min ?_ le_rfl
    have hzr : reconBonus r = False := by
      simp only [eq_iff_iff, iff_false]
      rintro ⟨st', hst', _⟩
      rw [hsub] at hst'
      cases hst'
    have h5b := iteNonneg (reconBonus { r with subtotal := some st })
    dsimp only
    simp only [hzr, if_false]
    linarith

/-- Witness for C3 at the empty record. -/
theorem c3_witness :
    (0.5 : ℚ) ≤ calcConfidence ⟨none, none, none, [], none, none, none, 0⟩ ∧
    calcConfidence ⟨none, none, none, [], none, none, none, 0⟩ ≤
      calcConfidence ⟨some "M", none, none, [], none, none, none, 0⟩ ∧
    calcConfidence ⟨none, none, none, [], none, none, none, 0⟩ ≤
      calcConfidence ⟨none, none, none, [⟨"x", none, 1, 2⟩], none, none, none, 0⟩ :=
  ⟨(c3_confidence_structure ⟨none, none, none, [], none, none, none, 0⟩).2.1,
    (c3_confidence_structure ⟨none, none, none, [], none, none, none, 0⟩).2.2.2.1 "M" rfl,
    (c3_confidence_structure ⟨none, none, none, [], none, none, none, 0⟩).2.2.2.2.2.2.1
      ⟨"x", none, 1, 2⟩ rfl⟩

/-- A record with subtotal 100.0 and an item sum of 104.9. -/
def recSub1049 : ParsedReceipt :=
  ⟨none, none, none, [⟨"item", none, 1, 104.9⟩], some 100, none, none, 0⟩

/-- A record with subtotal 100.0 and an item sum of 106.0. -/
def recSub1060 : ParsedReceipt :=
  ⟨none, none, none, [⟨"item", none, 1, 106⟩], some 100, none, none, 0⟩

/-- Claim C4: the reconciliation bonus of +0.1 is granted exactly when a
subtotal is present, at least one item exists, and the item sum is
within `0.05 × subtotal` of the subtotal; with subtotal 100.0 the bonus
applies at item sum 104.9 (score 0.7) and not at 106.0 (score 0.6). -/
theorem c4_reconciliation_tolerance :
    (∀ (r : ParsedReceipt) (st : ℚ), r.subtotal = some st →
      (reconBonus r ↔ (r.items ≠ [] ∧ |itemsSum r.items - st| ≤ 0.05 * st))) ∧
    (∀ r : ParsedReceipt, calcConfidence r = specScore r) ∧
    calcConfidence recSub1049 = 0.7 ∧
    calcConfidence recSub1060 = 0.6 := by
  have h49 : calcConfidence recSub1049 = 0.7 := by
    rw [calc_eq_spec]
    unfold specScore reconBonus recSub1049 itemsSum
    norm_num [abs_le, min_def]
  have h60 : calcConfidence recSub1060 = 0.6 := by
    rw [calc_eq_spec]
    unfold specScore reconBonus recSub1060 itemsSum
    norm_num [abs_le, min_def]
  refine ⟨?_, calc_eq_spec, h49, h60⟩
  intro r st h
  constructor
  · rintro ⟨st', hst', hlen, htol⟩
    rw [h] at hst'
    injection hst' with e
    subst e
    refine ⟨List.length_pos.mp hlen, ?_⟩
    rw [mul_comm]
    exact htol
  · rintro ⟨hne, htol⟩
    refine ⟨st, h, List.length_pos.mpr hne, ?_⟩
    rw [mul_comm]
    exact htol

/-- Witness for C4 at the two concrete records. -/
theorem c4_witness :
    (reconBonus recSub1049 ↔
      (recSub1049.items ≠ [] ∧ |itemsSum recSub1049.items - 100| ≤ 0.05 * 100)) ∧
    (reconBonus recSub1060 ↔
      (recSub1060.items ≠ [] ∧ |itemsSum recSub1060.items - 100| ≤ 0.05 * 100)) :=
  ⟨c4_reconciliation_tolerance.1 recSub1049 100 rfl,
    c4_reconciliation_tolerance.1 recSub1060 100 rfl⟩

/-! ## Claim C7: per-item defaulting -/

/-- Claim C7 counterexample: an item carrying a `qty` of the wrong JSON
type (a string) is not tolerated — the whole decode fails — while the
same payload with that item's fields absent decodes successfully. -/
theorem c7_counterexample :
    isOkE (parseResponse "\x7b\"items\":[\x7b\"qty\":\"x\"\x7d]\x7d") = false ∧
    isOkE (parseResponse "\x7b\"items\":[\x7b\x7d]\x7d") = true := by
  constructor
  · unfold parseResponse
    rw [extractJSON_no_tick _ (by decide)]
    rfl
  · unfold parseResponse
    rw [extractJSON_no_tick _ (by decide)]
    rfl

/-- Claim C7 (amended): for every decoded line item, a missing or null
quantity becomes 1.0, a missing or null unit price becomes 0.0, the raw
field is preserved exactly as given (even when empty), and no item of
the intermediate decode is dropped; an item field of the wrong JSON
type, however, fails the entire decode rather than being tolerated. -/
theorem c7_item_defaults (p : parsedJSON) (k : Nat) (it : itemJSON)
    (h : p.items[k]? = some it) :
    (∃ out, (receiptFromParsed p).items[k]? = some out ∧
      out.raw = it.raw ∧
      (it.qty = none → out.qty = 1) ∧
      (∀ q, it.qty = some q → out.qty = q) ∧
      (it.unitPrice = none → out.unitPrice = 0) ∧
      (∀ u, it.unitPrice = some u → out.unitPrice = u)) ∧
    (receiptFromParsed p).items.length = p.items.length := by
  constructor
  · refine ⟨itemFromJSON it, ?_, rfl, ?_, ?_, ?_, ?_⟩
    · show ((receiptFromParsed p).items)[k]? = some (itemFromJSON it)
      unfold receiptFromParsed
      dsimp only
      rw [List.getElem?_map, h]
      rfl
    · intro hq
      simp [itemFromJSON, hq]
    · intro q hq
      simp [itemFromJSON, hq]
    · intro hu
      simp [itemFromJSON, hu]
    · intro u hu
      simp [itemFromJSON, hu]
  · unfold receiptFromParsed
    dsimp only
    exact List.length_map _ _

/-- Witness for C7 at a one-item intermediate value with all fields absent. -/
theorem c7_witness :
    (∃ out, (receiptFromParsed (⟨"", none, "", [⟨"", "", none, none⟩], none, none,
        none⟩ : parsedJSON)).items[0]? = some out ∧
      out.raw = (⟨"", "", none, none⟩ : itemJSON).raw ∧
      ((⟨"", "", none, none⟩ : itemJSON).qty = none → out.qty = 1) ∧
      (∀ q, (⟨"", "", none, none⟩ : itemJSON).qty = some q → out.qty = q) ∧
      ((⟨"", "", none, none⟩ : itemJSON).unitPrice = none → out.unitPrice = 0) ∧
      (∀ u, (⟨"", "", none, none⟩ : itemJSON).unitPrice = some u → out.unitPrice = u)) ∧
    (receiptFromParsed (⟨"", none, "", [⟨"", "", none, none⟩], none, none,
      none⟩ : parsedJSON)).items.length =
      (⟨"", none, "", [⟨"", "", none, none⟩], none, none, none⟩ : parsedJSON).items.length :=
  c7_item_defaults ⟨"", none, "", [⟨"", "", none, none⟩], none, none, none⟩ 0
    ⟨"", "", none, none⟩ rfl

/-! ## Claim C10: explicitly-empty strings collapse into absence -/

/-- Claim C10: when `merchant`, `currency` or an item's `name` is present
but equal to the empty string, the decoded record has the corresponding
field absent, so an explicitly-empty field is indistinguishable from an
omitted one (shown concretely on full decodes). -/
theorem c10_empty_strings_absent (p : parsedJSON) :
    (p.merchant = "" → (receiptFromParsed p).merchant = none) ∧
    (p.currency = "" → (receiptFromParsed p).currency = none) ∧
    (∀ (k : Nat) (it : itemJSON), p.items[k]? = some it → it.name = "" →
      ∃ out, (receiptFromParsed p).items[k]? = some out ∧ out.name = none) ∧
    parseResponse "\x7b\"merchant\":\"\",\"currency\":\"\"\x7d" = parseResponse "\x7b\x7d" := by
  refine ⟨?_, ?_, ?_, ?_⟩
  · intro h
    simp [receiptFromParsed, h]
  · intro h
    simp [receiptFromParsed, h]
  · intro k it h hname
    refine ⟨itemFromJSON it, ?_, ?_⟩
    · show ((receiptFromParsed p).items)[k]? = some (itemFromJSON it)
      unfold receiptFromParsed
      dsimp only
      rw [List.getElem?_map, h]
      rfl
    · simp [itemFromJSON, hname]
  · unfold parseResponse
    rw [extractJSON_no_tick "\x7b\"merchant\":\"\",\"currency\":\"\"\x7d" (by decide),
      extractJSON_no_tick "\x7b\x7d" (by decide)]
    rfl

/-- Witness for C10 at an intermediate value with empty merchant,
currency and item name. -/
theorem c10_witness :
    (receiptFromParsed (⟨"", none, "", [⟨"r", "", none, none⟩], none, none,
      none⟩ : parsedJSON)).merchant = none ∧
    (receiptFromParsed (⟨"", none, "", [⟨"r", "", none, none⟩], none, none,
      none⟩ : parsedJSON)).currency = none ∧
    ∃ out, (receiptFromParsed (⟨"", none, "", [⟨"r", "", none, none⟩], none, none,
      none⟩ : parsedJSON)).items[0]? = some out ∧ out.name = none :=
  ⟨(c10_empty_strings_absent ⟨"", none, "", [⟨"r", "", none, none⟩], none, none, none⟩).1 rfl,
    (c10_empty_strings_absent ⟨"", none, "", [⟨"r", "", none, none⟩], none, none, none⟩).2.1 rfl,
    (c10_empty_strings_absent ⟨"", none, "", [⟨"r", "", none, none⟩], none, none,
      none⟩).2.2.1 0 ⟨"r", "", none, none⟩ rfl rfl⟩

/-! ## Claim C6: when the decode succeeds

The declarative shape predicate below characterizes the JSON values the
unmarshalling pass accepts: the top level is `null` or an object; every
member whose key folds to a known tag must hold a value of that field's
type (or `null`); unknown members are unrestricted. -/

/-- A JSON value acceptable for a Go string-typed field. -/
def strOrNull : Json → Bool
  | Json.null => true
  | Json.str _ => true
  | _ => false

/-- A JSON value acceptable for a Go float64-typed field. -/
def numOrNull : Json → Bool
  | Json.null => true
  | Json.num _ => true
  | _ => false

/-- Type conformance of one object member against `itemJSON`. -/
def itemMemberOK (m : String × Json) : Bool :=
  if keyMatch m.1 "raw" then strOrNull m.2
  else if keyMatch m.1 "name" then strOrNull m.2
  else if keyMatch m.1 "qty" then numOrNull m.2
  else if keyMatch m.1 "unit_price" then numOrNull m.2
  else true

/-- Type conformance of one array element against `itemJSON`. -/
def itemConforms : Json → Bool
  | Json.null => true
  | Json.obj ms => ms.all itemMemberOK
  | _ => false

/-- A JSON value acceptable for the `items` slice field. -/
def itemsValOK : Json → Bool
  | Json.null => true
  | Json.arr xs => xs.all itemConforms
  | _ => false

/-- Type conformance of one object member against `parsedJSON`. -/
def parsedMemberOK (m : String × Json) : Bool :=
  if keyMatch m.1 "merchant" then strOrNull m.2
  else if keyMatch m.1 "date" then strOrNull m.2
  else if keyMatch m.1 "currency" then strOrNull m.2
  else if keyMatch m.1 "items" then itemsValOK m.2
  else if keyMatch m.1 "subtotal" then numOrNull m.2
  else if keyMatch m.1 "tax" then numOrNull m.2
  else if keyMatch m.1 "total" then numOrNull m.2
  else true

/-- Type conformance of a whole JSON value against `parsedJSON`. -/
def conforms : Json → Bool
  | Json.null => true
  | Json.obj ms => ms.all parsedMemberOK
  | _ => false

/-- `Except.map` preserves success. -/
theorem isOkE_map {ε α β : Type} (f : α → β) (e : Except ε α) :
    isOkE (e.map f) = isOkE e := by
  cases e <;> rfl

/-- `asStrKeep` succeeds exactly on strings and `null`. -/
theorem asStrKeep_isOk (cur : String) (v : Json) : isOkE (asStrKeep cur v) = strOrNull v := by
  cases v <;> rfl

/-- `asStrOpt` succeeds exactly on strings and `null`. -/
theorem asStrOpt_isOk (v : Json) : isOkE (asStrOpt v) = strOrNull v := by
  cases v <;> rfl

/-- `asNumOpt` succeeds exactly on numbers and `null`. -/
theorem asNumOpt_isOk (v : Json) : isOkE (asNumOpt v) = numOrNull v := by
  cases v <;> rfl

/-- One `itemJSON` member decodes exactly when it conforms. -/
theorem setItemField_isOk (it : itemJSON) (k : String) (v : Json) :
    isOkE (setItemField it k v) = itemMemberOK (k, v) := by
  unfold setItemField itemMemberOK
  by_cases h1 : keyMatch k "raw"
  · rw [if_pos h1, if_pos h1, isOkE_map, asStrKeep_isOk]
  · rw [if_neg h1, if_neg h1]
    by_cases h2 : keyMatch k "name"
    · rw [if_pos h2, if_pos h2, isOkE_map, asStrKeep_isOk]
    · rw [if_neg h2, if_neg h2]
      by_cases h3 : keyMatch k "qty"
      · rw [if_pos h3, if_pos h3, isOkE_map, asNumOpt_isOk]
      · rw [if_neg h3, if_neg h3]
        by_cases h4 : keyMatch k "unit_price"
        · rw [if_pos h4, if_pos h4, isOkE_map, asNumOpt_isOk]
        · rw [if_neg h4, if_neg h4]
          rfl

/-- A member list decodes into `itemJSON` exactly when all members conform. -/
theorem applyItemMembers_isOk (ms : List (String × Json)) :
    ∀ it : itemJSON, isOkE (applyItemMembers it ms) = ms.all itemMemberOK := by
  induction ms with
  | nil =>
    intro it
    rfl
  | cons m rest ih =>
    intro it
    rcases m with ⟨k, v⟩
    have hm := setItemField_isOk it k v
    rw [applyItemMembers]
    rcases hs : setItemField it k v with e | it2
    · rw [hs] at hm
      rw [List.all_cons, ← hm]
      rfl
    · rw [hs] at hm
      rw [List.all_cons, ← hm, ih it2]
      rfl

/-- One array element decodes into `itemJSON` exactly when it conforms. -/
theorem decodeItem_isOk (v : Json) : isOkE (decodeItem v) = itemConforms v := by
  cases v with
  | obj ms => exact applyItemMembers_isOk ms zeroItem
  | _ => rfl

/-- An element list decodes into `[]itemJSON` exactly when all elements conform. -/
theorem decodeItemList_isOk (xs : List Json) :
    isOkE (decodeItemList xs) = xs.all itemConforms := by
  induction xs with
  | nil => rfl
  | cons v rest ih =>
    have hv := decodeItem_isOk v
    rw [decodeItemList]
    rcases hd : decodeItem v with e | it
    · rw [hd] at hv
      rw [List.all_cons, ← hv]
      rfl
    · rw [hd] at hv
      rw [List.all_cons, ← hv]
      rcases hl : decodeItemList rest with e2 | its
      · rw [hl] at ih
        rw [← ih]
        rfl
      · rw [hl] at ih
        rw [← ih]
        rfl

/-- The `items` value decodes exactly when it is `null` or a conforming array. -/
theorem asItems_isOk (v : Json) : isOkE (asItems v) = itemsValOK v := by
  cases v with
  | arr xs => exact decodeItemList_isOk xs
  | _ => rfl

/-- One `parsedJSON` member decodes exactly when it conforms. -/
theorem setParsedField_isOk (p : parsedJSON) (k : String) (v : Json) :
    isOkE (setParsedField p k v) = parsedMemberOK (k, v) := by
  unfold setParsedField parsedMemberOK
  by_cases h1 : keyMatch k "merchant"
  · rw [if_pos h1, if_pos h1, isOkE_map, asStrKeep_isOk]
  · rw [if_neg h1, if_neg h1]
    by_cases h2 : keyMatch k "date"
    · rw [if_pos h2, if_pos h2, isOkE_map, asStrOpt_isOk]
    · rw [if_neg h2, if_neg h2]
      by_cases h3 : keyMatch k "currency"
      · rw [if_pos h3, if_pos h3, isOkE_map, asStrKeep_isOk]
      · rw [if_neg h3, if_neg h3]
        by_cases h4 : keyMatch k "items"
        · rw [if_pos h4, if_pos h4, isOkE_map, asItems_isOk]
        · rw [if_neg h4, if_neg h4]
          by_cases h5 : keyMatch k "subtotal"
          · rw [if_pos h5, if_pos h5, isOkE_map, asNumOpt_isOk]
          · rw [if_neg h5, if_neg h5]
            by_cases h6 : keyMatch k "tax"
            · rw [if_pos h6, if_pos h6, isOkE_map, asNumOpt_isOk]
            · rw [if_neg h6, if_neg h6]
              by_cases h7 : keyMatch k "total"
              · rw [if_pos h7, if_pos h7, isOkE_map, asNumOpt_isOk]
              · rw [if_neg h7, if_neg h7]
                rfl

/-- A member list decodes into `parsedJSON` exactly when all members conform. -/
theorem applyParsedMembers_isOk (ms : List (String × Json)) :
    ∀ p : parsedJSON, isOkE (applyParsedMembers p ms) = ms.all parsedMemberOK := by
  induction ms with
  | nil =>
    intro p
    rfl
  | cons m rest ih =>
    intro p
    rcases m with ⟨k, v⟩
    have hm := setParsedField_isOk p k v
    rw [applyParsedMembers]
    rcases hs : setParsedField p k v with e | p2
    · rw [hs] at hm
      rw [List.all_cons, ← hm]
      rfl
    · rw [hs] at hm
      rw [List.all_cons, ← hm, ih p2]
      rfl

/-- `json.Unmarshal` into `parsedJSON` succeeds exactly on conforming values. -/
theorem unmarshalParsed_isOk (v : Json) : isOkE (unmarshalParsed v) = conforms v := by
  cases v with
  | obj ms => exact applyParsedMembers_isOk ms zeroParsed
  | _ => rfl

/-- Claim C6 counterexample: `merchant` bound to a number is
syntactically valid JSON, yet the decode fails — so failure is not
equivalent to syntactic invalidity. -/
theorem c6_counterexample :
    (parseJsonText "\x7b\"merchant\":1\x7d").isSome = true ∧
    isOkE (parseResponse "\x7b\"merchant\":1\x7d") = false := by
  constructor
  · rfl
  · unfold parseResponse
    rw [extractJSON_no_tick _ (by decide)]
    rfl

/-- Claim C6 (amended): the decode succeeds exactly when the candidate
text is syntactically valid JSON whose value also conforms to the
expected field types (`null` or an object; known keys holding a value of
the field's type or `null`; unknown keys and missing fields tolerated);
on failure no record at all is returned. -/
theorem c6_decode_success_iff (raw : String) :
    (isOkE (parseResponse raw) = true ↔
      ∃ v, parseJsonText (extractJSON raw) = some v ∧ conforms v = true) ∧
    (∀ e, parseResponse raw = Except.error e →
      ∀ r, parseResponse raw ≠ Except.ok r) := by
  constructor
  · unfold parseResponse
    rcases hp : parseJsonText (extractJSON raw) with _ | v
    · dsimp only
      constructor
      · intro h
        cases h
      · rintro ⟨v, hv, _⟩
        cases hv
    · dsimp only
      have hcv := unmarshalParsed_isOk v
      rcases hu : unmarshalParsed v with e | p
      · rw [hu] at hcv
        dsimp only
        constructor
        · intro h
          cases h
        · rintro ⟨v', hv', hcv'⟩
          injection hv' with hvv
          subst hvv
          rw [← hcv] at hcv'
          cases hcv'
      · rw [hu] at hcv
        dsimp only
        constructor
        · intro _
          exact ⟨v, rfl, hcv.symm⟩
        · intro _
          rfl
  · intro e he r
    rw [he]
    intro hcon
    cases hcon

/-- Witness for C6 on a concrete success and a concrete failure. -/
theorem c6_witness :
    (isOkE (parseResponse "\x7b\x7d") = true ↔
      ∃ v, parseJsonText (extractJSON "\x7b\x7d") = some v ∧ conforms v = true) ∧
    parseResponse "hello" ≠ Except.ok (receiptFromParsed zeroParsed) :=
  ⟨(c6_decode_success_iff "\x7b\x7d").1,
    (c6_decode_success_iff "hello").2 "invalid JSON: syntax error"
      (by
        unfold parseResponse
        rw [extractJSON_no_tick _ (by decide)]
        rfl)
      (receiptFromParsed zeroParsed)⟩

/-! ## Claim C5: fence-wrapping is a no-op

The lemmas below track one wrapped text `fence ++ j ++ "\n```"` through
`extractJSON`: the opening fence (with or without `json`) is consumed by
the first regex match, the closing fence is consumed by a later match
leaving only its preceding newline, and that newline is trimmed away. -/

/-- Taking two of a list extended by a non-backtick-headed suffix leaves
the backtick-pair test unchanged. -/
theorem take2_append_iff (cs : List Char) (s0 : Char) (srest : List Char)
    (hcs : cs ≠ []) (hs0 : s0 ≠ tickChar) :
    ((cs ++ s0 :: srest).take 2 = [tickChar, tickChar]) ↔
      (cs.take 2 = [tickChar, tickChar]) := by
  rcases cs with _ | ⟨x, cs'⟩
  · exact absurd rfl hcs
  · rcases cs' with _ | ⟨y, cs''⟩
    · constructor
      · intro h
        simp only [List.cons_append, List.nil_append, List.take_succ_cons,
          List.cons.injEq] at h
        exact absurd h.2.1 hs0
      · intro h
        simp at h
    · have h2 : 2 ≤ (x :: y :: cs'').length := by
        simp only [List.length_cons]
        omega
      rw [List.take_append_of_le_length h2]

/-- Taking four of a `}`-terminated list extended by the closing fence
leaves the `json` test unchanged. -/
theorem take4_append_iff (x : List Char) (hx : x.getLast? = some '}') :
    ((x ++ "\n```".data).take 4 = jsonLit) ↔ (x.take 4 = jsonLit) := by
  by_cases h4 : 4 ≤ x.length
  · rw [List.take_append_of_le_length h4]
  · obtain ⟨ys, rfl⟩ := List.getLast?_eq_some_iff.mp hx
    rcases ys with _ | ⟨y1, ys⟩
    · constructor
      · intro h
        exact absurd h (by decide)
      · intro h
        exact absurd h (by decide)
    · rcases ys with _ | ⟨y2, ys⟩
      · constructor
        · intro h
          simp only [List.cons_append, List.nil_append, List.take_succ_cons,
            jsonLit, List.cons.injEq] at h
          exact absurd h.2.1 (by decide)
        · intro h
          simp only [List.cons_append, List.nil_append, List.take_succ_cons,
            jsonLit, List.cons.injEq] at h
          rcases h with ⟨_, h, _⟩
          exact absurd h (by decide)
      · rcases ys with _ | ⟨y3, ys⟩
        · constructor
          · intro h
            simp only [List.cons_append, List.nil_append, List.take_succ_cons,
              jsonLit, List.cons.injEq] at h
            exact absurd h.2.2.1 (by decide)
          · intro h
            simp only [List.cons_append, List.nil_append, List.take_succ_cons,
              jsonLit, List.cons.injEq] at h
            exact absurd h.2.2.1 (by decide)
        · exfalso
          apply h4
          simp only [List.append_assoc, List.length_append, List.length_cons]
          omega

/-- Dropping whitespace commutes with appending past a `}`-terminated list. -/
theorem dropWhile_append_end (x suf : List Char) (hx : x.getLast? = some '}') :
    (x ++ suf).dropWhile isReWS = x.dropWhile isReWS ++ suf := by
  obtain ⟨ys, rfl⟩ := List.getLast?_eq_some_iff.mp hx
  rw [List.dropWhile_append]
  rw [if_neg]
  intro hempty
  rw [List.isEmpty_iff, List.dropWhile_eq_nil_iff] at hempty
  have := hempty '}' (List.mem_append_right ys (List.mem_singleton_self _))
  exact absurd this (by decide)

/-- Dropping whitespace preserves the final `}`. -/
theorem dropWhile_getLast (x : List Char) (hx : x.getLast? = some '}') :
    (x.dropWhile isReWS).getLast? = some '}' := by
  obtain ⟨ys, rfl⟩ := List.getLast?_eq_some_iff.mp hx
  rw [List.dropWhile_append]
  split
  · rfl
  · exact List.getLast?_concat _

/-- A list whose first two elements are backticks has length at least two. -/
theorem take2_len (cs : List Char) (ht : cs.take 2 = [tickChar, tickChar]) :
    2 ≤ cs.length := by
  by_contra hlt
  push_neg at hlt
  rw [List.take_of_length_le (by omega)] at ht
  have := congrArg List.length ht
  simp only [List.length_cons, List.length_nil] at this
  omega

/-- The fence remainder of a backtick-pair-headed, `}`-terminated list is
unchanged by the closing fence, which stays appended. -/
theorem fenceRest_append_closing (cs : List Char) (ht : cs.take 2 = [tickChar, tickChar])
    (hlast : cs.getLast? = some '}') :
    fenceRest (cs ++ "\n```".data) = fenceRest cs ++ "\n```".data ∧
    (fenceRest cs).getLast? = some '}' ∧ (fenceRest cs).length ≤ cs.length := by
  have hlen2 : 2 ≤ cs.length := take2_len cs ht
  obtain ⟨ys, hys⟩ := List.getLast?_eq_some_iff.mp hlast
  have hlen3 : 3 ≤ cs.length := by
    rcases Nat.lt_or_ge cs.length 3 with hlt | hge
    · exfalso
      have hcs2 : cs.length = 2 := by omega
      have : cs.take 2 = cs := by
        rw [← hcs2]
        exact List.take_length cs
      rw [this] at ht
      rw [ht] at hlast
      exact absurd hlast (by decide)
    · exact hge
  have hys2 : 2 ≤ ys.length := by
    have : cs.length = ys.length + 1 := by
      rw [hys]
      simp
    omega
  have ha : cs.drop 2 = ys.drop 2 ++ ['}'] := by
    rw [hys, List.drop_append_of_le_length hys2]
  have haLast : (cs.drop 2).getLast? = some '}' := by
    rw [ha]
    exact List.getLast?_concat _
  have hdrop : (cs ++ "\n```".data).drop 2 = cs.drop 2 ++ "\n```".data :=
    List.drop_append_of_le_length hlen2
  unfold fenceRest
  rw [hdrop]
  by_cases hj : (cs.drop 2).take 4 = jsonLit
  · have hj' : (cs.drop 2 ++ "\n```".data).take 4 = jsonLit :=
      (take4_append_iff (cs.drop 2) haLast).mpr hj
    rw [if_pos hj', if_pos hj]
    have h4 : 4 ≤ (cs.drop 2).length := by
      by_contra hlt
      push_neg at hlt
      rw [List.take_of_length_le (by omega)] at hj
      have := congrArg List.length hj
      simp only [jsonLit, List.length_cons, List.length_nil] at this
      omega
    have h5 : 5 ≤ (cs.drop 2).length := by
      rcases Nat.lt_or_ge (cs.drop 2).length 5 with hlt | hge
      · exfalso
        have heq4 : (cs.drop 2).length = 4 := by omega
        have : (cs.drop 2).take 4 = cs.drop 2 := by
          rw [← heq4]
          exact List.take_length _
        rw [this] at hj
        rw [hj] at haLast
        exact absurd haLast (by decide)
      · exact hge
    have hys4 : 4 ≤ (ys.drop 2).length := by
      have : (cs.drop 2).length = (ys.drop 2).length + 1 := by
        rw [ha]
        simp
      omega
    have hb : (cs.drop 2).drop 4 = (ys.drop 2).drop 4 ++ ['}'] := by
      rw [ha, List.drop_append_of_le_length hys4]
    have hbLast : ((cs.drop 2).drop 4).getLast? = some '}' := by
      rw [hb]
      exact List.getLast?_concat _
    have hdrop4 : (cs.drop 2 ++ "\n```".data).drop 4 = (cs.drop 2).drop 4 ++ "\n```".data :=
      List.drop_append_of_le_length h4
    rw [hdrop4, dropWhile_append_end _ _ hbLast]
    refine ⟨rfl, dropWhile_getLast _ hbLast, ?_⟩
    calc (((cs.drop 2).drop 4).dropWhile isReWS).length
        ≤ ((cs.drop 2).drop 4).length := lenDropWhileLe _ _
      _ ≤ cs.length := by
          simp only [List.length_drop]
          omega
  · have hj' : ¬ (cs.drop 2 ++ "\n```".data).take 4 = jsonLit := by
      intro hcon
      exact hj ((take4_append_iff (cs.drop 2) haLast).mp hcon)
    rw [if_neg hj', if_neg hj]
    rw [dropWhile_append_end _ _ haLast]
    refine ⟨rfl, dropWhile_getLast _ haLast, ?_⟩
    calc ((cs.drop 2).dropWhile isReWS).length
        ≤ (cs.drop 2).length := lenDropWhileLe _ _
      _ ≤ cs.length := by
          simp only [List.length_drop]
          omega

/-- The concrete tail left by the closing fence. -/
theorem strip_closing_fence :
    stripCodeBlocks ('\n' :: tickChar :: tickChar :: tickChar :: []) = ['\n'] := by
  rw [stripCodeBlocks, if_neg (by decide), stripCodeBlocks, if_pos (by decide)]
  rw [show fenceRest [tickChar, tickChar] = [] from rfl, stripCodeBlocks]

/-- Appending the closing fence to a `}`-terminated text adds exactly a
newline to the stripped output. -/
theorem strip_append_closing : ∀ (n : Nat) (l : List Char), l.length ≤ n →
    l.getLast? = some '}' →
    stripCodeBlocks (l ++ "\n```".data) = stripCodeBlocks l ++ ['\n'] := by
  intro n
  induction n with
  | zero =>
    intro l hn hl
    rcases l with _ | _
    · cases hl
    · simp at hn
  | succ n ih =>
    intro l hn hl
    rcases l with _ | ⟨c, cs⟩
    · cases hl
    · rcases cs with _ | ⟨x, cs'⟩
      · have hc : c = '}' := by
          injection hl
        subst hc
        rw [show (['}'] ++ "\n```".data) =
          '}' :: '\n' :: tickChar :: tickChar :: tickChar :: [] from by decide]
        rw [stripCodeBlocks, if_neg (by decide), strip_closing_fence]
        rw [stripCodeBlocks_no_tick ['}'] (by decide)]
        rfl
      · have hcs : (x :: cs') ≠ [] := by simp
        have hlastcs : (x :: cs').getLast? = some '}' := by
          rw [← List.getLast?_cons_cons]
          exact hl
        by_cases hm : c = tickChar ∧ (x :: cs').take 2 = [tickChar, tickChar]
        · obtain ⟨hc, ht⟩ := hm
          have hTake : ((x :: cs') ++ "\n```".data).take 2 = [tickChar, tickChar] :=
            (take2_append_iff (x :: cs') '\n' _ hcs (by decide)).mpr ht
          obtain ⟨hfr, hfrLast, hfrLen⟩ := fenceRest_append_closing (x :: cs') ht hlastcs
          have eL : stripCodeBlocks ((c :: x :: cs') ++ "\n```".data) =
              stripCodeBlocks (fenceRest ((x :: cs') ++ "\n```".data)) := by
            rw [List.cons_append, stripCodeBlocks, if_pos ⟨hc, hTake⟩]
          have eR : stripCodeBlocks (c :: x :: cs') =
              stripCodeBlocks (fenceRest (x :: cs')) := by
            rw [stripCodeBlocks, if_pos ⟨hc, ht⟩]
          rw [eL, eR, hfr]
          apply ih
          · have h1 : (c :: x :: cs').length ≤ n + 1 := hn
            have h2 := hfrLen
            simp only [List.length_cons] at h1 h2 ⊢
            omega
          · exact hfrLast
        · have hm' : ¬ (c = tickChar ∧ ((x :: cs') ++ "\n```".data).take 2 =
              [tickChar, tickChar]) := by
            intro ⟨hc, hTake⟩
            exact hm ⟨hc, (take2_append_iff (x :: cs') '\n' _ hcs (by decide)).mp hTake⟩
          have eL : stripCodeBlocks ((c :: x :: cs') ++ "\n```".data) =
              c :: stripCodeBlocks ((x :: cs') ++ "\n```".data) := by
            rw [List.cons_append, stripCodeBlocks, if_neg hm']
          have eR : stripCodeBlocks (c :: x :: cs') =
              c :: stripCodeBlocks (x :: cs') := by
            rw [stripCodeBlocks, if_neg hm]
          rw [eL, eR]
          rw [ih (x :: cs') (by
            simp only [List.length_cons] at hn ⊢
            omega) hlastcs]
          rfl

/-- The opening fence with the literal `json` is consumed entirely when
the body starts with a non-whitespace character. -/
theorem strip_fence_json (l : List Char) (c : Char) (hc : l.head? = some c)
    (hw : isReWS c = false) :
    stripCodeBlocks ("```json\n".data ++ l) = stripCodeBlocks l := by
  rcases l with _ | ⟨a, l'⟩
  · cases hc
  · have hac : a = c := by
      injection hc
    subst hac
    rw [show "```json\n".data ++ (a :: l') = tickChar :: tickChar :: tickChar ::
      'j' :: 's' :: 'o' :: 'n' :: '\n' :: a :: l' from by
        rw [show "```json\n".data = [tickChar, tickChar, tickChar, 'j', 's', 'o', 'n', '\n']
          from by decide]
        rfl]
    rw [stripCodeBlocks, if_pos ⟨rfl, rfl⟩]
    congr 1
    unfold fenceRest
    rw [show (tickChar :: tickChar :: 'j' :: 's' :: 'o' :: 'n' :: '\n' :: a :: l').drop 2 =
      'j' :: 's' :: 'o' :: 'n' :: '\n' :: a :: l' from rfl]
    rw [if_pos (show ('j' :: 's' :: 'o' :: 'n' :: '\n' :: a :: l').take 4 = jsonLit from rfl)]
    rw [show ('j' :: 's' :: 'o' :: 'n' :: '\n' :: a :: l').drop 4 = '\n' :: a :: l' from rfl]
    rw [List.dropWhile_cons, if_pos (by decide), List.dropWhile_cons, if_neg (by rw [hw]; simp)]

/-- The bare opening fence is consumed entirely when the body starts with
a non-whitespace, non-`json`-initial character. -/
theorem strip_fence_plain (l : List Char) (c : Char) (hc : l.head? = some c)
    (hw : isReWS c = false) :
    stripCodeBlocks ("```\n".data ++ l) = stripCodeBlocks l := by
  rcases l with _ | ⟨a, l'⟩
  · cases hc
  · have hac : a = c := by
      injection hc
    subst hac
    rw [show "```\n".data ++ (a :: l') = tickChar :: tickChar :: tickChar ::
      '\n' :: a :: l' from by
        rw [show "```\n".data = [tickChar, tickChar, tickChar, '\n'] from by decide]
        rfl]
    rw [stripCodeBlocks, if_pos ⟨rfl, rfl⟩]
    congr 1
    unfold fenceRest
    rw [show (tickChar :: tickChar :: '\n' :: a :: l').drop 2 = '\n' :: a :: l' from rfl]
    rw [if_neg (by simp [jsonLit])]
    rw [List.dropWhile_cons, if_pos (by decide), List.dropWhile_cons, if_neg (by rw [hw]; simp)]

/-- `removeTicks` of a lone newline. -/
theorem removeTicks_nl : removeTicks ['\n'] = ['\n'] :=
  removeTicks_no_tick ['\n'] (by decide)

/-- `removeTicks` of the empty list. -/
theorem removeTicks_empty : removeTicks [] = [] :=
  removeTicks_no_tick [] (by intro c hc; cases hc)

/-- `removeTicks` commutes with a trailing newline. -/
theorem removeTicks_newline : ∀ (n : Nat) (l : List Char), l.length ≤ n →
    removeTicks (l ++ ['\n']) = removeTicks l ++ ['\n'] := by
  intro n
  induction n with
  | zero =>
    intro l hn
    rcases l with _ | _
    · rw [List.nil_append, removeTicks_nl, removeTicks_empty]
      rfl
    · simp at hn
  | succ n ih =>
    intro l hn
    rcases l with _ | ⟨c, cs⟩
    · rw [List.nil_append, removeTicks_nl, removeTicks_empty]
      rfl
    · by_cases hm : c = tickChar ∧ cs.take 2 = [tickChar, tickChar]
      · obtain ⟨hc, ht⟩ := hm
        have hlen2 : 2 ≤ cs.length := take2_len cs ht
        have hTake : (cs ++ ['\n']).take 2 = [tickChar, tickChar] := by
          rw [List.take_append_of_le_length hlen2, ht]
        have hDrop : (cs ++ ['\n']).drop 2 = cs.drop 2 ++ ['\n'] :=
          List.drop_append_of_le_length hlen2
        have eL : removeTicks ((c :: cs) ++ ['\n']) = removeTicks (cs.drop 2 ++ ['\n']) := by
          rw [List.cons_append, removeTicks, if_pos ⟨hc, hTake⟩, hDrop]
        have eR : removeTicks (c :: cs) = removeTicks (cs.drop 2) := by
          rw [removeTicks, if_pos ⟨hc, ht⟩]
        rw [eL, eR]
        apply ih
        simp only [List.length_cons] at hn
        simp only [List.length_drop]
        omega
      · have hcons : ∀ ds : List Char, ¬ (c = tickChar ∧ ds.take 2 = [tickChar, tickChar]) →
            removeTicks (c :: ds) = c :: removeTicks ds := by
          intro ds hds
          rw [removeTicks, if_neg hds]
        rcases cs with _ | ⟨x, cs'⟩
        · have eL : removeTicks ((c :: []) ++ ['\n']) = c :: removeTicks ['\n'] := by
            rw [List.cons_append, List.nil_append]
            exact hcons ['\n'] (by
              intro hq
              exact absurd hq.2 (by decide))
          have eR : removeTicks [c] = c :: removeTicks [] := hcons [] hm
          rw [eL, eR, removeTicks_nl, removeTicks_empty]
          rfl
        · have hm' : ¬ (c = tickChar ∧ ((x :: cs') ++ ['\n']).take 2 =
              [tickChar, tickChar]) := by
            intro hq
            exact hm ⟨hq.1, (take2_append_iff (x :: cs') '\n' [] (by simp)
              (by decide)).mp hq.2⟩
          have eL : removeTicks ((c :: x :: cs') ++ ['\n']) =
              c :: removeTicks ((x :: cs') ++ ['\n']) := by
            rw [List.cons_append]
            exact hcons ((x :: cs') ++ ['\n']) hm'
          have eR : removeTicks (c :: x :: cs') = c :: removeTicks (x :: cs') :=
            hcons (x :: cs') hm
          rw [eL, eR]
          rw [ih (x :: cs') (by
            simp only [List.length_cons] at hn ⊢
            omega)]
          rfl

/-- `trimSpace` absorbs a trailing newline. -/
theorem trimSpace_newline (l : List Char) : trimSpace (l ++ ['\n']) = trimSpace l := by
  unfold trimSpace
  rw [List.dropWhile_append]
  rcases h : l.dropWhile isGoSpace with _ | ⟨d, ds⟩
  · rw [if_pos (by simp)]
    rfl
  · rw [if_neg (by simp)]
    rw [List.reverse_append, List.reverse_singleton, List.singleton_append]
    rw [List.dropWhile_cons, if_pos (by decide)]

/-- Both fence wrappings of a brace-delimited text extract to the same
candidate as the bare text. -/
theorem extract_fenced (j : String) (h1 : j.data.head? = some '{')
    (h2 : j.data.getLast? = some '}') :
    extractJSON ("```json\n" ++ j ++ "\n```") = extractJSON j ∧
    extractJSON ("```\n" ++ j ++ "\n```") = extractJSON j := by
  have hne : j.data ≠ [] := by
    intro hnil
    rw [hnil] at h1
    cases h1
  have hhead : (j.data ++ "\n```".data).head? = some '{' := by
    rw [List.head?_append_of_ne_nil _ hne]
    exact h1
  constructor
  · unfold extractJSON
    rw [show ("```json\n" ++ j ++ "\n```").data =
      "```json\n".data ++ (j.data ++ "\n```".data) from by
        rw [String.data_append, String.data_append, List.append_assoc]]
    rw [strip_fence_json _ '{' hhead (by decide)]
    rw [strip_append_closing j.data.length j.data le_rfl h2]
    rw [removeTicks_newline (stripCodeBlocks j.data).length _ le_rfl]
    rw [trimSpace_newline]
  · unfold extractJSON
    rw [show ("```\n" ++ j ++ "\n```").data =
      "```\n".data ++ (j.data ++ "\n```".data) from by
        rw [String.data_append, String.data_append, List.append_assoc]]
    rw [strip_fence_plain _ '{' hhead (by decide)]
    rw [strip_append_closing j.data.length j.data le_rfl h2]
    rw [removeTicks_newline (stripCodeBlocks j.data).length _ le_rfl]
    rw [trimSpace_newline]

/-- Claim C5: for every JSON object text (brace-delimited), the bare
text, the text wrapped in a ```` ```json ```` fence, and the text
wrapped in a plain ```` ``` ```` fence all decode to the identical
record. -/
theorem c5_fence_wrapping_noop (j : String) (h1 : j.data.head? = some '{')
    (h2 : j.data.getLast? = some '}') :
    parseResponse ("```json\n" ++ j ++ "\n```") = parseResponse j ∧
    parseResponse ("```\n" ++ j ++ "\n```") = parseResponse j := by
  obtain ⟨e1, e2⟩ := extract_fenced j h1 h2
  constructor
  · unfold parseResponse
    rw [e1]
  · unfold parseResponse
    rw [e2]

/-- Witness for C5 at a concrete object text. -/
theorem c5_witness :
    parseResponse ("```json\n" ++ "\x7b\"merchant\":\"Acme\"\x7d" ++ "\n```") =
      parseResponse "\x7b\"merchant\":\"Acme\"\x7d" ∧
    parseResponse ("```\n" ++ "\x7b\"merchant\":\"Acme\"\x7d" ++ "\n```") =
      parseResponse "\x7b\"merchant\":\"Acme\"\x7d" :=
  c5_fence_wrapping_noop "\x7b\"merchant\":\"Acme\"\x7d" (by decide) (by decide)

end NullReceipts
